import Mathlib

/-!
Verification development for the `transcribe` batch-transcription tool.

Strings are modelled as `List Char`.  The Go standard-library helpers the
program calls (`strings.Join`, `strings.Replace`, `strings.ToLower`,
`strings.HasSuffix`, `filepath.Base`) are embedded character-by-character;
the external world (file system stat results, GCS and Speech API outcomes,
the `sox` subprocess) is an oracle structure, and the orchestrator is a
function from that oracle to an event trace plus an exit code.
-/

namespace Transcribe

abbrev Str := List Char

/-- Go `strings.Join(phrases, " ")`: concatenation with a single space
between consecutive elements. -/
def joinSpace : List Str → Str
  | [] => []
  | [s] => s
  | s :: rest => s ++ ' ' :: joinSpace rest

/-- Fuel-indexed core of Go `strings.Replace(s, old, new, -1)` (single
left-to-right pass, non-overlapping, the replacement text is not rescanned).
Only used with non-empty `old`; fuel `s.length` always suffices because each
step consumes at least one character. -/
def goReplaceAux (old new : Str) : Nat → Str → Str
  | 0, s => s
  | fuel + 1, s =>
    match s with
    | [] => []
    | c :: cs =>
      if old.isPrefixOf (c :: cs) ∧ old ≠ [] then
        new ++ goReplaceAux old new fuel ((c :: cs).drop old.length)
      else
        c :: goReplaceAux old new fuel cs

/-- Go `strings.Replace(s, old, new, -1)` for non-empty `old`. -/
def goReplace (old new s : Str) : Str :=
  goReplaceAux old new s.length s

/-- `PostProcess` from `pkg/transcribe/transcribe.go`: join the phrases with
single spaces, then `strings.Replace(data, "  ", " ", -1)`, then
`strings.Replace(data, "\n ", "\n", -1)`. -/
def PostProcess (phrases : List Str) : Str :=
  let data := joinSpace phrases
  let data := goReplace [' ', ' '] [' '] data
  goReplace ['\n', ' '] ['\n'] data

/-- Spec-side transform, following the spec words: "collapse any run of two
spaces into one" as a single left-to-right pass. -/
def collapseDoubleSpace : Str → Str
  | c :: d :: rest =>
    if c = ' ' ∧ d = ' ' then ' ' :: collapseDoubleSpace rest
    else c :: collapseDoubleSpace (d :: rest)
  | l => l

/-- Spec-side transform, following the spec words: "collapse a
newline-followed-by-space into a bare newline", single left-to-right pass. -/
def collapseNewlineSpace : Str → Str
  | c :: d :: rest =>
    if c = '\n' ∧ d = ' ' then '\n' :: collapseNewlineSpace rest
    else c :: collapseNewlineSpace (d :: rest)
  | l => l

/-- Spec-side post-processing: concatenate the segments with single-space
separators, collapse double spaces, collapse newline-space. -/
def specPostProcess (phrases : List Str) : Str :=
  collapseNewlineSpace (collapseDoubleSpace (joinSpace phrases))

/-- Does `pat` occur as a contiguous substring of `s`? -/
def hasPat (pat : Str) : Str → Bool
  | [] => pat.isEmpty
  | c :: cs => pat.isPrefixOf (c :: cs) || hasPat pat cs

/-! ## External world and Go standard-library helpers -/

/-- Go `strings.ToLower` (simple per-character folding; only ASCII matters
for the `.wav` suffix check and the object key). -/
def goToLower (s : Str) : Str := s.map Char.toLower

/-- `strings.HasSuffix(strings.ToLower(file), ".wav")` from `main.go`. -/
def wavOk (file : Str) : Bool := (".wav".data).isSuffixOf (goToLower file)

def dropTrailingSlashes (p : Str) : Str := (p.reverse.dropWhile (· = '/')).reverse

def afterLastSlash (p : Str) : Str := (p.reverse.takeWhile (· ≠ '/')).reverse

/-- Go `filepath.Base` on Unix: empty path gives ".", a path of only
slashes gives "/", otherwise the last element after trailing slashes are
removed. -/
def goBase (p : Str) : Str :=
  if p = [] then ['.']
  else
    let q := dropTrailingSlashes p
    if q = [] then ['/'] else afterLastSlash q

def txtExt : Str := ".txt".data

/-- The output path `filepath.Join(*output, filepath.Base(file)+".txt")`,
with the join operation abstracted as a parameter `jp` (its internals are
irrelevant; the same join is used at filtering and at dispatch). -/
def outPath (jp : Str → Str → Str) (dir file : Str) : Str :=
  jp dir (goBase file ++ txtExt)

/-- The staged object key `path.Join("tmp/audio", strings.ToLower(name))`;
for the slash-free base names produced by `goBase` the join reduces to
prefixing `tmp/audio/`. -/
def objectKey (name : Str) : Str := "tmp/audio/".data ++ goToLower name

/-- Result of `os.Stat` on an output path: the file exists, it definitely
does not exist, or stat failed with some other error. -/
inductive StatRes
  | found
  | notExist
  | otherErr
  deriving DecidableEq

/-- Oracle for the external world: file-system stat results, client
construction outcomes, bucket creation, the `sox` subprocess, uploads,
transcription results (`none` is an error), and output writes. -/
structure Env where
  statOut : Str → StatRes
  clientOk : Bool
  speechOk : Bool
  newBucketOk : Bool
  now : Nat
  tmpDir : Str
  soxOk : Str → Bool
  uploadOk : Str → Bool
  transcribe : Str → Option (List Str)
  writeOk : Str → Bool

/-- The command-line flags of `cmd/transcribe`. An empty `bucket` means no
caller-supplied bucket, so the run creates (and owns) a transient one. -/
structure Flags where
  project : Str
  output : Str
  bucket : Str
  mono : Bool

/-- Observable side effects of a run, in program order. -/
inductive Event
  | createStorageClient
  | createSpeechClient
  | createBucket (bucket : Str)
  | deleteBucket (bucket : Str)
  | sox (file : Str)
  | removeTmp (file : Str)
  | upload (bucket object : Str)
  | submit (bucket object : Str)
  | writeOut (path : Str) (data : Str)
  | deleteObject (bucket object : Str)
  deriving DecidableEq

/-! ## The per-item pipeline (`process` in `cmd/transcribe/main.go`) -/

/-- Steps (b)-(d) of `process`: upload the (possibly converted) file,
with `defer storagex.TryDeleteObject` scheduled right after a successful
upload; submit for transcription; post-process; write the output file.
The deferred deletion runs on every return path after the upload
succeeded, so the `deleteObject` event closes each such trace. -/
def processCore (env : Env) (bucket filename name out : Str) : List Event × Bool :=
  let object := objectKey name
  if env.uploadOk filename = false then
    ([Event.upload bucket object], false)
  else
    match env.transcribe object with
    | none =>
      ([Event.upload bucket object, Event.submit bucket object,
        Event.deleteObject bucket object], false)
    | some phrases =>
      let data := PostProcess phrases
      if env.writeOk out = false then
        ([Event.upload bucket object, Event.submit bucket object,
          Event.writeOut out data, Event.deleteObject bucket object], false)
      else
        ([Event.upload bucket object, Event.submit bucket object,
          Event.writeOut out data, Event.deleteObject bucket object], true)

/-- `process` from `cmd/transcribe/main.go`. With `mono` set, `sox` first
converts into `filepath.Join(os.TempDir(), name)` and `defer os.Remove(tmp)`
is scheduled; deferred calls run last-in first-out, so the staged-object
deletion precedes the temp-file removal in the trace. -/
def process (env : Env) (jp : Str → Str → Str) (bucket filename out : Str)
    (mono : Bool) : List Event × Bool :=
  let name := goBase filename
  if mono then
    let tmp := jp env.tmpDir name
    if env.soxOk filename = false then
      ([Event.sox filename], false)
    else
      let r := processCore env bucket tmp name out
      (Event.sox filename :: (r.1 ++ [Event.removeTmp tmp]), r.2)
  else
    processCore env bucket filename name out

/-! ## The batch orchestrator (`main` in `cmd/transcribe/main.go`) -/

/-- The input-filtering loop of `main`: a file whose lower-cased name does
not end in ".wav" is fatal (`none`); a file whose computed output path
stats as anything other than definitely-absent is skipped; the rest
survive in order. -/
def filterFiles (env : Env) (jp : Str → Str → Str) (dir : Str) :
    List Str → Option (List Str)
  | [] => some []
  | f :: fs =>
    if wavOk f = false then none
    else
      match env.statOut (outPath jp dir f) with
      | .notExist => (filterFiles env jp dir fs).map (f :: ·)
      | _ => filterFiles env jp dir fs

/-- The fan-out of `main`, step (4): one `process` execution per surviving
file; the second component models the atomic `failures` counter, bumped
once per pipeline that returned an error. The goroutines share no mutable
state besides that counter, and `main` joins on all of them, so the batch
outcome is interleaving-invariant and the traces are composed in file
order. -/
def runItems (env : Env) (jp : Str → Str → Str) (flags : Flags)
    (bucket : Str) : List Str → List Event × Nat
  | [] => ([], 0)
  | f :: fs =>
    let r := process env jp bucket f (outPath jp flags.output f) flags.mono
    let rest := runItems env jp flags bucket fs
    (r.1 ++ rest.1, (if r.2 then 0 else 1) + rest.2)

/-- The transient bucket name `fmt.Sprintf("transcribe-%v", time.Now().UnixNano())`. -/
def bucketName (env : Env) : Str := "transcribe-".data ++ (Nat.repr env.now).data

/-- The bucket a run stages into: the generated one when the flag was
empty, the caller-supplied one otherwise. -/
def effBucket (env : Env) (flags : Flags) : Str :=
  if flags.bucket = [] then bucketName env else flags.bucket

/-- `main` from `cmd/transcribe/main.go`, as a function from the oracle to
the event trace and the process exit code. `log.Fatal` and `log.Fatalf`
call `os.Exit(1)`, which terminates without running deferred functions;
in particular the `log.Fatalf` issued after the join when `failures > 0`
skips the deferred `storagex.TryDeleteBucket`, so no `deleteBucket` event
is emitted on that path. -/
def runMain (env : Env) (jp : Str → Str → Str) (flags : Flags)
    (args : List Str) : List Event × Nat :=
  if args = [] then ([], 1)
  else if flags.project = [] then ([], 1)
  else
    match filterFiles env jp flags.output args with
    | none => ([], 1)
    | some files =>
      if files = [] then ([], 0)
      else if env.clientOk = false then ([Event.createStorageClient], 1)
      else if env.speechOk = false then
        ([Event.createStorageClient, Event.createSpeechClient], 1)
      else
        let pre := [Event.createStorageClient, Event.createSpeechClient]
        if flags.bucket = [] then
          let b := bucketName env
          if env.newBucketOk = false then (pre ++ [Event.createBucket b], 1)
          else
            let r := runItems env jp flags b files
            if r.2 = 0 then
              (pre ++ Event.createBucket b :: (r.1 ++ [Event.deleteBucket b]), 0)
            else
              (pre ++ Event.createBucket b :: r.1, 1)
        else
          let r := runItems env jp flags flags.bucket files
          if r.2 = 0 then (pre ++ r.1, 0) else (pre ++ r.1, 1)

/-- Success condition of the stage step for one item: with `mono` the
conversion must succeed and the converted temp file must upload; without
it the original file must upload. -/
def uploadSucceeds (env : Env) (jp : Str → Str → Str) (filename : Str)
    (mono : Bool) : Bool :=
  if mono then env.soxOk filename && env.uploadOk (jp env.tmpDir (goBase filename))
  else env.uploadOk filename

/-- Whether the pipeline for file `f` reports success. -/
def pipelineOk (env : Env) (jp : Str → Str → Str) (flags : Flags)
    (bucket f : Str) : Bool :=
  (process env jp bucket f (outPath jp flags.output f) flags.mono).2

/-- Number of occurrences of one event in a trace. -/
def countOcc (e : Event) (tr : List Event) : Nat :=
  tr.countP (fun x => decide (x = e))

/-! ## Concrete instances used to exercise the model -/

/-- Plain slash join, a concrete instance of the abstracted `filepath.Join`. -/
def jpSlash : Str → Str → Str := fun a b => a ++ '/' :: b

/-- A world in which everything works except that every upload fails. -/
def envUploadFails : Env where
  statOut := fun _ => .notExist
  clientOk := true
  speechOk := true
  newBucketOk := true
  now := 0
  tmpDir := "/tmp".data
  soxOk := fun _ => true
  uploadOk := fun _ => false
  transcribe := fun _ => none
  writeOk := fun _ => true

/-- A world in which every step succeeds and transcription returns one
segment. -/
def envAllOk : Env where
  statOut := fun _ => .notExist
  clientOk := true
  speechOk := true
  newBucketOk := true
  now := 0
  tmpDir := "/tmp".data
  soxOk := fun _ => true
  uploadOk := fun _ => true
  transcribe := fun _ => some ["hi".data]
  writeOk := fun _ => true

/-- Flags with no caller-supplied bucket: the run owns the staging bucket. -/
def flagsOwned : Flags where
  project := "p".data
  output := ".".data
  bucket := []
  mono := false

/-- Batch-level setup and teardown events, as opposed to per-item pipeline
events. -/
def isSetup : Event → Bool
  | .createStorageClient => true
  | .createSpeechClient => true
  | .createBucket _ => true
  | .deleteBucket _ => true
  | _ => false

/-- A world in which every output path already exists. -/
def envAllDone : Env :=
  { envAllOk with statOut := fun _ => .found }

/-- A world in which the stat of "./a.wav.txt" fails with a non-not-exist
error (say, permission denied) and every other stat reports absence. -/
def envStatDenied : Env :=
  { envAllOk with
    statOut := fun p => if p = "./a.wav.txt".data then .otherErr else .notExist }

/-- A world in which the output for "a.wav" already exists and every other
output path is absent. -/
def envOneDone : Env :=
  { envAllOk with
    statOut := fun p => if p = "./a.wav.txt".data then .found else .notExist }

/-- A world in which only the file "a.wav" uploads successfully. -/
def envOneFails : Env :=
  { envAllOk with uploadOk := fun f => f == "a.wav".data }

/-- A world in which transcription succeeds but returns no text segments. -/
def envEmptyTranscript : Env :=
  { envAllOk with transcribe := fun _ => some [] }

/-! ## String-processing lemmas -/

theorem goReplaceAux_nil (old new : Str) (fuel : Nat) :
    goReplaceAux old new fuel [] = [] := by
  cases fuel <;> simp [goReplaceAux]

/-- A single pass replacing the two-character pattern `[a, b]` by `[e]`
agrees with any function satisfying the pairwise-collapse equations. -/
theorem goReplaceAux_pair (a b e : Char) (f : Str → Str)
    (hf0 : f [] = [])
    (hf1 : ∀ c, f [c] = [c])
    (hf2 : ∀ c d rest, f (c :: d :: rest) =
      if c = a ∧ d = b then e :: f rest else c :: f (d :: rest)) :
    ∀ fuel l, l.length ≤ fuel → goReplaceAux [a, b] [e] fuel l = f l := by
  intro fuel
  induction fuel with
  | zero =>
    intro l hl
    have : l = [] := List.eq_nil_of_length_eq_zero (Nat.le_zero.mp hl)
    subst this
    simp [goReplaceAux, hf0]
  | succ n ih =>
    intro l hl
    match l with
    | [] => simp [goReplaceAux, hf0]
    | [c] =>
      have hpre : ([a, b].isPrefixOf [c] : Bool) = false := by
        simp [List.isPrefixOf]
      simp [goReplaceAux, hpre, goReplaceAux_nil, hf1]
    | c :: d :: rest =>
      by_cases hab : c = a ∧ d = b
      · obtain ⟨hc, hd⟩ := hab
        subst hc; subst hd
        have hpre : ([c, d].isPrefixOf (c :: d :: rest) : Bool) = true := by
          simp [List.isPrefixOf]
        have hrest : rest.length ≤ n := by
          simp at hl; omega
        simp [goReplaceAux, hpre, hf2, ih rest hrest]
      · have hpre : ¬ (([a, b].isPrefixOf (c :: d :: rest) : Bool) = true ∧ [a, b] ≠ []) := by
          simp [List.isPrefixOf]
          intro h1 h2
          exact absurd ⟨h1.symm, h2.symm⟩ hab
        have hrest : (d :: rest).length ≤ n := by
          simp at hl ⊢; omega
        rw [goReplaceAux, if_neg hpre] at *
        rw [ih (d :: rest) hrest, hf2, if_neg hab]

/-- If the pattern does not occur in `s`, a replacement pass leaves `s`
unchanged. -/
theorem goReplaceAux_no_occurrence (pat new : Str) :
    ∀ fuel s, s.length ≤ fuel → hasPat pat s = false →
      goReplaceAux pat new fuel s = s := by
  intro fuel
  induction fuel with
  | zero =>
    intro s hl _
    have : s = [] := List.eq_nil_of_length_eq_zero (Nat.le_zero.mp hl)
    subst this
    simp [goReplaceAux]
  | succ n ih =>
    intro s hl hno
    match s with
    | [] => simp [goReplaceAux]
    | c :: cs =>
      rw [hasPat] at hno
      have h1 : (pat.isPrefixOf (c :: cs) : Bool) = false := by
        cases h : (pat.isPrefixOf (c :: cs) : Bool) <;> simp [h] at hno ⊢
      have h2 : hasPat pat cs = false := by
        cases h : hasPat pat cs <;> simp [h] at hno ⊢
      have hcs : cs.length ≤ n := by simp at hl; omega
      rw [goReplaceAux, if_neg (by simp [h1])]
      rw [ih cs hcs h2]

theorem goReplace_no_occurrence (pat new s : Str) (h : hasPat pat s = false) :
    goReplace pat new s = s :=
  goReplaceAux_no_occurrence pat new s.length s (Nat.le_refl _) h

/-- Input with no double space and no newline-space is a fixed point of the
post-processing transform. -/
theorem postProcess_fixed (s : Str)
    (h1 : hasPat [' ', ' '] s = false) (h2 : hasPat ['\n', ' '] s = false) :
    PostProcess [s] = s := by
  show goReplace ['\n', ' '] ['\n'] (goReplace [' ', ' '] [' '] (joinSpace [s])) = s
  have hj : joinSpace [s] = s := rfl
  rw [hj, goReplace_no_occurrence _ _ _ h1, goReplace_no_occurrence _ _ _ h2]

/-- C7: the post-processing function produces the string obtained by
concatenating the segments with single-space separators, collapsing any run
of two spaces into one, and collapsing a newline-followed-by-space into a
bare newline; on segments ["hello", "world"] it returns "hello world", and
on the single segment ["a  b"] it returns "a b". -/
theorem postprocess_spec_and_examples :
    (∀ phrases, PostProcess phrases = specPostProcess phrases)
    ∧ PostProcess ["hello".data, "world".data] = "hello world".data
    ∧ PostProcess ["a  b".data] = "a b".data := by
  refine ⟨?_, by decide, by decide⟩
  intro phrases
  show goReplace ['\n', ' '] ['\n'] (goReplace [' ', ' '] [' '] (joinSpace phrases))
    = specPostProcess phrases
  unfold specPostProcess
  simp only [goReplace]
  rw [goReplaceAux_pair ' ' ' ' ' ' collapseDoubleSpace rfl (fun c => rfl)
      (fun c d rest => rfl) _ _ (Nat.le_refl _)]
  rw [goReplaceAux_pair '\n' ' ' '\n' collapseNewlineSpace rfl (fun c => rfl)
      (fun c d rest => rfl) _ _ (Nat.le_refl _)]

/-- C8: the post-processing transform is idempotent on already-normalized
input: a string with no double space and no newline-space, fed back in as a
single segment, gives the same result when the transform is applied twice
as when it is applied once. -/
theorem postprocess_idempotent_on_normalized (s : Str)
    (h1 : hasPat [' ', ' '] s = false) (h2 : hasPat ['\n', ' '] s = false) :
    PostProcess [PostProcess [s]] = PostProcess [s] := by
  rw [postProcess_fixed s h1 h2]
  exact postProcess_fixed s h1 h2

/-- Witness for C8 at the already-normalized string "hello world". -/
theorem postprocess_idempotent_on_normalized_witness :
    hasPat [' ', ' '] "hello world".data = false
    ∧ hasPat ['\n', ' '] "hello world".data = false
    ∧ PostProcess [PostProcess ["hello world".data]] = PostProcess ["hello world".data] :=
  ⟨by decide, by decide,
    postprocess_idempotent_on_normalized "hello world".data (by decide) (by decide)⟩

/-! ## Filtering lemmas -/

/-- Every file that survives filtering had a definitely-absent output path. -/
theorem filterFiles_mem_stat (env : Env) (jp : Str → Str → Str) (dir : Str) :
    ∀ args files f, filterFiles env jp dir args = some files → f ∈ files →
      env.statOut (outPath jp dir f) = StatRes.notExist := by
  intro args
  induction args with
  | nil =>
    intro files f h hf
    simp [filterFiles] at h
    subst h
    exact absurd hf (List.not_mem_nil f)
  | cons a rest ih =>
    intro files f h hf
    by_cases hw : wavOk a = false
    · simp [filterFiles, hw] at h
    · cases hstat : env.statOut (outPath jp dir a) with
      | notExist =>
        simp [filterFiles, hw, hstat] at h
        obtain ⟨fs, hfs, heq⟩ := h
        subst heq
        rcases List.mem_cons.mp hf with heq | hmem
        · subst heq; exact hstat
        · exact ih fs f hfs hmem
      | found =>
        simp [filterFiles, hw, hstat] at h
        exact ih files f h hf
      | otherErr =>
        simp [filterFiles, hw, hstat] at h
        exact ih files f h hf

/-- Every input file that passed the format check and whose output path is
definitely absent survives filtering. -/
theorem filterFiles_keeps_absent (env : Env) (jp : Str → Str → Str) (dir : Str) :
    ∀ args files f, filterFiles env jp dir args = some files → f ∈ args →
      env.statOut (outPath jp dir f) = StatRes.notExist → f ∈ files := by
  intro args
  induction args with
  | nil =>
    intro files f _ hmem _
    exact absurd hmem (List.not_mem_nil f)
  | cons a rest ih =>
    intro files f h hmem habs
    by_cases hw : wavOk a = false
    · simp [filterFiles, hw] at h
    · cases hstat : env.statOut (outPath jp dir a) with
      | notExist =>
        simp [filterFiles, hw, hstat] at h
        obtain ⟨fs, hfs, heq⟩ := h
        subst heq
        rcases List.mem_cons.mp hmem with heq | hmem'
        · subst heq; exact List.mem_cons_self _ _
        · exact List.mem_cons_of_mem _ (ih fs f hfs hmem' habs)
      | found =>
        simp [filterFiles, hw, hstat] at h
        rcases List.mem_cons.mp hmem with heq | hmem'
        · subst heq; rw [habs] at hstat; cases hstat
        · exact ih files f h hmem' habs
      | otherErr =>
        simp [filterFiles, hw, hstat] at h
        rcases List.mem_cons.mp hmem with heq | hmem'
        · subst heq; rw [habs] at hstat; cases hstat
        · exact ih files f h hmem' habs

/-- A single file failing the ".wav" check makes the whole filtering loop
fatal. -/
theorem filterFiles_none_of_bad_wav (env : Env) (jp : Str → Str → Str) (dir : Str) :
    ∀ args f, f ∈ args → wavOk f = false → filterFiles env jp dir args = none := by
  intro args
  induction args with
  | nil =>
    intro f hmem _
    exact absurd hmem (List.not_mem_nil f)
  | cons a rest ih =>
    intro f hmem hwav
    rcases List.mem_cons.mp hmem with heq | hmem'
    · subst heq; simp [filterFiles, hwav]
    · by_cases hw : wavOk a = false
      · simp [filterFiles, hw]
      · cases hstat : env.statOut (outPath jp dir a) with
        | notExist => simp [filterFiles, hw, hstat, ih f hmem' hwav]
        | found => simp [filterFiles, hw, hstat, ih f hmem' hwav]
        | otherErr => simp [filterFiles, hw, hstat, ih f hmem' hwav]

/-- C10: the filtering step dispatches a candidate file if and only if the
stat of its computed output path reports definite absence; both a
successful stat and a stat failing with any error other than not-exist
(for example a permission error) cause the file to be skipped. -/
theorem only_definite_absence_dispatched (env : Env) (jp : Str → Str → Str)
    (dir : Str) (args files : List Str) (f : Str)
    (hmem : f ∈ args) (hfilter : filterFiles env jp dir args = some files) :
    f ∈ files ↔ env.statOut (outPath jp dir f) = StatRes.notExist :=
  ⟨fun hf => filterFiles_mem_stat env jp dir args files f hfilter hf,
   fun hs => filterFiles_keeps_absent env jp dir args files f hfilter hmem hs⟩

/-- Witness for C10: the stat of "./a.wav.txt" fails with a permission-like
error, so "a.wav" is skipped while "b.wav" survives. -/
theorem only_definite_absence_dispatched_witness :
    "a.wav".data ∈ ["a.wav".data, "b.wav".data]
    ∧ filterFiles envStatDenied jpSlash ".".data ["a.wav".data, "b.wav".data]
        = some ["b.wav".data]
    ∧ ("a.wav".data ∈ ["b.wav".data]
        ↔ envStatDenied.statOut (outPath jpSlash ".".data "a.wav".data) = StatRes.notExist) :=
  ⟨by decide, by decide,
    only_definite_absence_dispatched envStatDenied jpSlash ".".data
      ["a.wav".data, "b.wav".data] ["b.wav".data] "a.wav".data (by decide) (by decide)⟩

/-! ## Orchestrator theorems -/

/-- C5: when zero files survive filtering the run exits cleanly with a
success code and an empty side-effect trace: no storage or speech client is
constructed, no container is created, no item is dispatched. -/
theorem no_survivors_no_side_effects (env : Env) (jp : Str → Str → Str)
    (flags : Flags) (args : List Str)
    (h1 : args ≠ []) (h2 : flags.project ≠ [])
    (h3 : filterFiles env jp flags.output args = some []) :
    runMain env jp flags args = ([], 0) := by
  simp [runMain, h1, h2, h3]

/-- Witness for C5: one input file whose output already exists. -/
theorem no_survivors_no_side_effects_witness :
    ["a.wav".data] ≠ ([] : List Str)
    ∧ flagsOwned.project ≠ []
    ∧ filterFiles envAllDone jpSlash flagsOwned.output ["a.wav".data] = some []
    ∧ runMain envAllDone jpSlash flagsOwned ["a.wav".data] = ([], 0) :=
  ⟨by decide, by decide, by decide,
    no_survivors_no_side_effects envAllDone jpSlash flagsOwned ["a.wav".data]
      (by decide) (by decide) (by decide)⟩

/-- C6: an input file whose lower-cased name does not end in ".wav" makes
the run terminate fatally during filtering, with an empty side-effect
trace: no client is constructed and no item work begins. -/
theorem unsupported_format_aborts_before_clients (env : Env)
    (jp : Str → Str → Str) (flags : Flags) (args : List Str) (f : Str)
    (hmem : f ∈ args) (hwav : wavOk f = false) (hproj : flags.project ≠ []) :
    runMain env jp flags args = ([], 1) := by
  have hne : args ≠ [] := by
    rintro rfl
    exact absurd hmem (List.not_mem_nil f)
  have hfil := filterFiles_none_of_bad_wav env jp flags.output args f hmem hwav
  simp [runMain, hne, hproj, hfil]

/-- Witness for C6: a batch containing a ".txt" file aborts fatally. -/
theorem unsupported_format_aborts_before_clients_witness :
    "a.txt".data ∈ ["b.wav".data, "a.txt".data]
    ∧ wavOk "a.txt".data = false
    ∧ flagsOwned.project ≠ []
    ∧ runMain envAllOk jpSlash flagsOwned ["b.wav".data, "a.txt".data] = ([], 1) :=
  ⟨by decide, by decide, by decide,
    unsupported_format_aborts_before_clients envAllOk jpSlash flagsOwned
      ["b.wav".data, "a.txt".data] "a.txt".data (by decide) (by decide) (by decide)⟩

/-- The joined failure counter equals the number of dispatched pipelines
that returned a failure signal. -/
theorem runItems_count (env : Env) (jp : Str → Str → Str) (flags : Flags)
    (bucket : Str) :
    ∀ files, (runItems env jp flags bucket files).2
      = files.countP (fun f => ! pipelineOk env jp flags bucket f) := by
  intro files
  induction files with
  | nil => rfl
  | cons f fs ih =>
    simp only [runItems, List.countP_cons, ih, pipelineOk]
    cases hr : (process env jp bucket f (outPath jp flags.output f) flags.mono).2 <;>
      simp [hr, Nat.add_comm]

/-- Every event of the fan-out trace belongs to the pipeline of some
dispatched file. -/
theorem runItems_trace_mem (env : Env) (jp : Str → Str → Str) (flags : Flags)
    (bucket : Str) :
    ∀ files e, e ∈ (runItems env jp flags bucket files).1 →
      ∃ g ∈ files, e ∈ (process env jp bucket g (outPath jp flags.output g) flags.mono).1 := by
  intro files
  induction files with
  | nil => intro e he; simp [runItems] at he
  | cons f fs ih =>
    intro e he
    simp only [runItems] at he
    rcases List.mem_append.mp he with h | h
    · exact ⟨f, List.mem_cons_self _ _, h⟩
    · obtain ⟨g, hg, hge⟩ := ih e h
      exact ⟨g, List.mem_cons_of_mem _ hg, hge⟩

/-- C3: the aggregate failure counter is bumped exactly once per pipeline
execution that returned a failure signal — computed over the dispatched
(surviving) files only — and the process exit code is nonzero exactly when
that counter is nonzero after the join. -/
theorem failure_counter_drives_exit (env : Env) (jp : Str → Str → Str)
    (flags : Flags) (args files : List Str)
    (hargs : args ≠ []) (hproj : flags.project ≠ [])
    (hfilter : filterFiles env jp flags.output args = some files)
    (hne : files ≠ []) (hcl : env.clientOk = true) (hsp : env.speechOk = true)
    (hbk : flags.bucket = [] → env.newBucketOk = true) :
    (runItems env jp flags (effBucket env flags) files).2
      = files.countP (fun f => ! pipelineOk env jp flags (effBucket env flags) f)
    ∧ ((runMain env jp flags args).2 ≠ 0
      ↔ files.countP (fun f => ! pipelineOk env jp flags (effBucket env flags) f) ≠ 0) := by
  refine ⟨runItems_count env jp flags (effBucket env flags) files, ?_⟩
  rw [← runItems_count env jp flags (effBucket env flags) files]
  by_cases hb : flags.bucket = []
  · have hnb := hbk hb
    by_cases hz : (runItems env jp flags (effBucket env flags) files).2 = 0
    · simp [runMain, hargs, hproj, hfilter, hne, hcl, hsp, hb, hnb, effBucket] at hz ⊢
      simp [hz]
    · simp [runMain, hargs, hproj, hfilter, hne, hcl, hsp, hb, hnb, effBucket] at hz ⊢
      simp [hz]
  · by_cases hz : (runItems env jp flags (effBucket env flags) files).2 = 0
    · simp [runMain, hargs, hproj, hfilter, hne, hcl, hsp, hb, effBucket] at hz ⊢
      simp [hz]
    · simp [runMain, hargs, hproj, hfilter, hne, hcl, hsp, hb, effBucket] at hz ⊢
      simp [hz]

/-- Witness for C3: a two-file batch in which exactly one upload fails;
the counter is 1 and the exit code is nonzero. -/
theorem failure_counter_drives_exit_witness :
    (["a.wav".data, "b.wav".data] : List Str) ≠ []
    ∧ flagsOwned.project ≠ []
    ∧ filterFiles envOneFails jpSlash flagsOwned.output ["a.wav".data, "b.wav".data]
        = some ["a.wav".data, "b.wav".data]
    ∧ (["a.wav".data, "b.wav".data] : List Str) ≠ []
    ∧ envOneFails.clientOk = true
    ∧ envOneFails.speechOk = true
    ∧ (flagsOwned.bucket = [] → envOneFails.newBucketOk = true)
    ∧ ((runItems envOneFails jpSlash flagsOwned (effBucket envOneFails flagsOwned)
          ["a.wav".data, "b.wav".data]).2
        = (["a.wav".data, "b.wav".data] : List Str).countP
            (fun f => ! pipelineOk envOneFails jpSlash flagsOwned
              (effBucket envOneFails flagsOwned) f)
      ∧ ((runMain envOneFails jpSlash flagsOwned ["a.wav".data, "b.wav".data]).2 ≠ 0
        ↔ (["a.wav".data, "b.wav".data] : List Str).countP
            (fun f => ! pipelineOk envOneFails jpSlash flagsOwned
              (effBucket envOneFails flagsOwned) f) ≠ 0)) :=
  ⟨by decide, by decide, by decide, by decide, by decide, by decide, by decide,
    failure_counter_drives_exit envOneFails jpSlash flagsOwned
      ["a.wav".data, "b.wav".data] ["a.wav".data, "b.wav".data]
      (by decide) (by decide) (by decide) (by decide) (by decide) (by decide) (by decide)⟩

/-- C2: a pipeline execution emits exactly one deletion attempt for its
staged object precisely when the upload succeeded — one deletion regardless
of whether transcription or the output write later failed, none when the
item never got staged. -/
theorem staged_object_deleted_exactly_once (env : Env) (jp : Str → Str → Str)
    (bucket filename out : Str) (mono : Bool) :
    countOcc (Event.deleteObject bucket (objectKey (goBase filename)))
        (process env jp bucket filename out mono).1
      = if uploadSucceeds env jp filename mono then 1 else 0 := by
  cases mono with
  | false =>
    cases hu : env.uploadOk filename with
    | false => simp [process, processCore, uploadSucceeds, countOcc, hu]
    | true =>
      cases ht : env.transcribe (objectKey (goBase filename)) with
      | none => simp [process, processCore, uploadSucceeds, countOcc, hu, ht]
      | some phrases =>
        cases hw : env.writeOk out <;>
          simp [process, processCore, uploadSucceeds, countOcc, hu, ht, hw]
  | true =>
    cases hs : env.soxOk filename with
    | false => simp [process, processCore, uploadSucceeds, countOcc, hs]
    | true =>
      cases hu : env.uploadOk (jp env.tmpDir (goBase filename)) with
      | false => simp [process, processCore, uploadSucceeds, countOcc, hs, hu]
      | true =>
        cases ht : env.transcribe (objectKey (goBase filename)) with
        | none => simp [process, processCore, uploadSucceeds, countOcc, hs, hu, ht]
        | some phrases =>
          cases hw : env.writeOk out <;>
            simp [process, processCore, uploadSucceeds, countOcc, hs, hu, ht, hw]

/-- C9: when transcription succeeds with an empty list of segments the
pipeline still writes the output file — with empty (zero-byte) content —
and reports success. -/
theorem empty_transcript_still_persisted (env : Env) (jp : Str → Str → Str)
    (bucket filename out : Str) (mono : Bool)
    (hup : uploadSucceeds env jp filename mono = true)
    (ht : env.transcribe (objectKey (goBase filename)) = some [])
    (hw : env.writeOk out = true) :
    (process env jp bucket filename out mono).2 = true
    ∧ Event.writeOut out [] ∈ (process env jp bucket filename out mono).1 := by
  have hpp : PostProcess [] = [] := rfl
  cases mono with
  | false =>
    have hu : env.uploadOk filename = true := by
      simpa [uploadSucceeds] using hup
    constructor <;> simp [process, processCore, hu, ht, hw, hpp]
  | true =>
    rw [uploadSucceeds] at hup
    simp only [if_true, Bool.and_eq_true] at hup
    constructor <;> simp [process, processCore, hup.1, hup.2, ht, hw, hpp]

/-- Witness for C9: an all-successful world whose transcription returns no
segments still writes the (empty) output and succeeds. -/
theorem empty_transcript_still_persisted_witness :
    uploadSucceeds envEmptyTranscript jpSlash "a.wav".data false = true
    ∧ envEmptyTranscript.transcribe (objectKey (goBase "a.wav".data)) = some []
    ∧ envEmptyTranscript.writeOk "./a.wav.txt".data = true
    ∧ ((process envEmptyTranscript jpSlash "b".data "a.wav".data "./a.wav.txt".data false).2 = true
      ∧ Event.writeOut "./a.wav.txt".data []
          ∈ (process envEmptyTranscript jpSlash "b".data "a.wav".data "./a.wav.txt".data false).1) :=
  ⟨by decide, by decide, by decide,
    empty_transcript_still_persisted envEmptyTranscript jpSlash "b".data
      "a.wav".data "./a.wav.txt".data false (by decide) (by decide) (by decide)⟩

/-- C4: a file whose computed output path already exists at filtering time
is never dispatched: it does not survive filtering, and every event of the
whole run is either batch setup/teardown or belongs to the pipeline of a
file that did survive — so no network call is made for the skipped file. -/
theorem already_transcribed_never_dispatched (env : Env) (jp : Str → Str → Str)
    (flags : Flags) (args files : List Str) (f : Str)
    (_hmem : f ∈ args)
    (hstat : env.statOut (outPath jp flags.output f) = StatRes.found)
    (hfilter : filterFiles env jp flags.output args = some files) :
    f ∉ files
    ∧ ∀ e ∈ (runMain env jp flags args).1,
        isSetup e = true
        ∨ ∃ g ∈ files, e ∈ (process env jp (effBucket env flags) g
            (outPath jp flags.output g) flags.mono).1 := by
  constructor
  · intro hf
    have h := filterFiles_mem_stat env jp flags.output args files f hfilter hf
    rw [hstat] at h
    cases h
  · intro e he
    by_cases h1 : args = []
    · simp [runMain, h1] at he
    · by_cases h2 : flags.project = []
      · simp [runMain, h1, h2] at he
      · by_cases h3 : files = []
        · rw [h3] at hfilter
          simp [runMain, h1, h2, hfilter] at he
        · cases hcl : env.clientOk with
          | false =>
            simp [runMain, h1, h2, hfilter, h3, hcl] at he
            exact Or.inl (by rw [he]; rfl)
          | true =>
            cases hsp : env.speechOk with
            | false =>
              simp [runMain, h1, h2, hfilter, h3, hcl, hsp] at he
              rcases he with rfl | rfl
              · exact Or.inl rfl
              · exact Or.inl rfl
            | true =>
              by_cases hb : flags.bucket = []
              · have heff : bucketName env = effBucket env flags := by
                  simp [effBucket, hb]
                rw [← heff]
                have hitem : e ∈ (runItems env jp flags (bucketName env) files).1 →
                    isSetup e = true ∨ ∃ g ∈ files,
                      e ∈ (process env jp (bucketName env) g
                        (outPath jp flags.output g) flags.mono).1 :=
                  fun h => Or.inr (runItems_trace_mem env jp flags (bucketName env) files e h)
                cases hnb : env.newBucketOk with
                | false =>
                  simp [runMain, h1, h2, hfilter, h3, hcl, hsp, hb, hnb] at he
                  rcases he with rfl | rfl | rfl
                  · exact Or.inl rfl
                  · exact Or.inl rfl
                  · exact Or.inl rfl
                | true =>
                  by_cases hz : (runItems env jp flags (bucketName env) files).2 = 0
                  · simp [runMain, h1, h2, hfilter, h3, hcl, hsp, hb, hnb, hz] at he
                    rcases he with rfl | rfl | rfl | hin | rfl
                    · exact Or.inl rfl
                    · exact Or.inl rfl
                    · exact Or.inl rfl
                    · exact hitem hin
                    · exact Or.inl rfl
                  · simp [runMain, h1, h2, hfilter, h3, hcl, hsp, hb, hnb, hz] at he
                    rcases he with rfl | rfl | rfl | hin
                    · exact Or.inl rfl
                    · exact Or.inl rfl
                    · exact Or.inl rfl
                    · exact hitem hin
              · have heff : flags.bucket = effBucket env flags := by
                  simp [effBucket, hb]
                rw [← heff]
                have hitem : e ∈ (runItems env jp flags flags.bucket files).1 →
                    isSetup e = true ∨ ∃ g ∈ files,
                      e ∈ (process env jp flags.bucket g
                        (outPath jp flags.output g) flags.mono).1 :=
                  fun h => Or.inr (runItems_trace_mem env jp flags flags.bucket files e h)
                by_cases hz : (runItems env jp flags flags.bucket files).2 = 0
                · simp [runMain, h1, h2, hfilter, h3, hcl, hsp, hb, hz] at he
                  rcases he with rfl | rfl | hin
                  · exact Or.inl rfl
                  · exact Or.inl rfl
                  · exact hitem hin
                · simp [runMain, h1, h2, hfilter, h3, hcl, hsp, hb, hz] at he
                  rcases he with rfl | rfl | hin
                  · exact Or.inl rfl
                  · exact Or.inl rfl
                  · exact hitem hin

/-- Witness for C4: the output of "a.wav" already exists, so only "b.wav"
is dispatched. -/
theorem already_transcribed_never_dispatched_witness :
    "a.wav".data ∈ ["a.wav".data, "b.wav".data]
    ∧ envOneDone.statOut (outPath jpSlash flagsOwned.output "a.wav".data) = StatRes.found
    ∧ filterFiles envOneDone jpSlash flagsOwned.output ["a.wav".data, "b.wav".data]
        = some ["b.wav".data]
    ∧ ("a.wav".data ∉ ["b.wav".data]
      ∧ ∀ e ∈ (runMain envOneDone jpSlash flagsOwned ["a.wav".data, "b.wav".data]).1,
          isSetup e = true
          ∨ ∃ g ∈ ["b.wav".data], e ∈ (process envOneDone jpSlash
              (effBucket envOneDone flagsOwned) g
              (outPath jpSlash flagsOwned.output g) flagsOwned.mono).1) :=
  ⟨by decide, by decide, by decide,
    already_transcribed_never_dispatched envOneDone jpSlash flagsOwned
      ["a.wav".data, "b.wav".data] ["b.wav".data] "a.wav".data
      (by decide) (by decide) (by decide)⟩

/-- C1 concerns the deletion of the run-owned staging bucket. The code
schedules `storagex.TryDeleteBucket` with `defer`, but when any item fails
`main` ends in `log.Fatalf`, which exits the process without running
deferred calls: a failing run that created its own bucket performs zero
bucket-deletion attempts, not one. This theorem evaluates both exit paths:
in a one-file run whose upload fails, the bucket is created once, the exit
code is nonzero, and no deletion attempt occurs; in the same run with
everything succeeding, exactly one deletion attempt occurs. -/
theorem run_owned_bucket_delete_skipped_on_failure :
    (runMain envUploadFails jpSlash flagsOwned ["a.wav".data]).2 = 1
    ∧ countOcc (Event.createBucket (bucketName envUploadFails))
        (runMain envUploadFails jpSlash flagsOwned ["a.wav".data]).1 = 1
    ∧ countOcc (Event.deleteBucket (bucketName envUploadFails))
        (runMain envUploadFails jpSlash flagsOwned ["a.wav".data]).1 = 0
    ∧ (runMain envAllOk jpSlash flagsOwned ["a.wav".data]).2 = 0
    ∧ countOcc (Event.deleteBucket (bucketName envAllOk))
        (runMain envAllOk jpSlash flagsOwned ["a.wav".data]).1 = 1 := by
  decide
